import Mathlib

/-
Verification of the stream-classification engine of src/main.py
(STM32 serial CSV logger).  Lines of text are modelled as List Char;
the Python string operations used by the source (str.strip, str.lower,
str.split, substring containment, re.sub of control characters, and
float() parseability) are embedded below, and the three core functions
is_numeric, is_csv_data_line and clean_csv_line are translated
line by line.  The ingestion loop of main() (lines 136-175) is modelled
as a step function on an explicit session state that returns the list
of output events (CSV rows, diagnostics, summaries) for one input line.
-/

/-- Control characters removed by the cleaning regex of src/main.py
lines 35 and 62: code points 0x00-0x1f and 0x7f-0x9f. -/
def isCtl (c : Char) : Bool :=
  c.toNat ≤ 31 || (127 ≤ c.toNat && c.toNat ≤ 159)

/-- Whitespace in the sense of Python str.strip() and float(): the code
points for which str.isspace() holds (ASCII whitespace, the C1 controls
0x1c-0x1f, NEL, NBSP and the Unicode space separators). -/
def isPySpace (c : Char) : Bool :=
  (9 ≤ c.toNat && c.toNat ≤ 13) || c.toNat = 28 || c.toNat = 29 ||
  c.toNat = 30 || c.toNat = 31 || c.toNat = 32 || c.toNat = 133 ||
  c.toNat = 160 || c.toNat = 5760 || (8192 ≤ c.toNat && c.toNat ≤ 8202) ||
  c.toNat = 8232 || c.toNat = 8233 || c.toNat = 8239 || c.toNat = 8287 ||
  c.toNat = 12288

/-- ASCII decimal digit. -/
def isDigit (c : Char) : Bool :=
  48 ≤ c.toNat && c.toNat ≤ 57

/-- ASCII lowering, as applied by str.lower() to the characters that
occur in the denylist keywords and in the lines the device emits. -/
def asciiLower (c : Char) : Char :=
  if 65 ≤ c.toNat && c.toNat ≤ 90 then Char.ofNat (c.toNat + 32) else c

/-- Python str.strip(): drop Python whitespace from both ends. -/
def pyStrip (l : List Char) : List Char :=
  (((l.dropWhile isPySpace).reverse.dropWhile isPySpace)).reverse

/-- The substitution re.sub applied at src/main.py lines 35 and 62:
delete every control character, keep the rest. -/
def stripCtl (l : List Char) : List Char :=
  l.filter (fun c => !(isCtl c))

/-- Check that pat occurs at the head of the second list (the one-sided
matching step of the Python substring operator). -/
def leadMatch : List Char → List Char → Bool
  | [], _ => true
  | _ :: _, [] => false
  | p :: ps, c :: cs => (p == c) && leadMatch ps cs

/-- Python substring containment, pat in l. -/
def containsSub (pat : List Char) : List Char → Bool
  | [] => pat.isEmpty
  | c :: rest => leadMatch pat (c :: rest) || containsSub pat rest

/-- Python str.split on the comma delimiter, as used at src/main.py
lines 44 and 65; an empty input yields one empty part. -/
def splitComma : List Char → List (List Char)
  | [] => [[]]
  | c :: rest =>
    if c = ',' then [] :: splitComma rest
    else
      match splitComma rest with
      | [] => [[c]]
      | h :: t => (c :: h) :: t

/-- Join token lists with the comma delimiter (inverse of splitComma on
comma-free tokens); used to state the realignment property of C1. -/
def joinComma : List (List Char) → List Char
  | [] => []
  | [t] => t
  | t :: ts => t ++ ',' :: joinComma ts

/-- Consume the tail of a digit run after an initial digit was read:
further digits, with single underscores allowed between two digits
(the digitpart grammar of Python float literals accepted by float()). -/
def dTail : List Char → List Char
  | [] => []
  | c :: rest =>
    if isDigit c then dTail rest
    else if c = '_' then
      match rest with
      | [] => c :: rest
      | d :: rest2 => if isDigit d then dTail rest2 else c :: rest
    else c :: rest

/-- Consume a digitpart (at least one digit, single underscores between
digits); none when the input does not start with a digit. -/
def consumeDigits : List Char → Option (List Char)
  | [] => none
  | c :: rest => if isDigit c then some (dTail rest) else none

/-- Accept an optional exponent part followed by end of input:
either the empty rest, or e/E, an optional sign and a digitpart. -/
def expEnd : List Char → Bool
  | [] => true
  | c :: rest =>
    if c = 'e' || c = 'E' then
      match rest with
      | [] => false
      | s :: rest2 =>
        if s = '+' || s = '-' then
          match consumeDigits rest2 with
          | some [] => true
          | _ => false
        else
          match consumeDigits rest with
          | some [] => true
          | _ => false
    else false

/-- Accept the body of a float() literal after the optional sign:
inf, infinity or nan (case-insensitive), or a decimal number
digitpart [. [digitpart]] [exponent] or . digitpart [exponent]. -/
def numBody (l : List Char) : Bool :=
  let low := List.map asciiLower l
  if low = "inf".data || low = "infinity".data || low = "nan".data then true
  else
    match consumeDigits l with
    | some rest =>
      match rest with
      | '.' :: r =>
        (match consumeDigits r with
         | some r2 => expEnd r2
         | none => expEnd r)
      | _ => expEnd rest
    | none =>
      match l with
      | '.' :: r =>
        match consumeDigits r with
        | some r2 => expEnd r2
        | none => false
      | _ => false

/-- Embedding of is_numeric (src/main.py lines 22-28): s parses under
Python float(), i.e. optional surrounding whitespace, an optional sign
and a float body.  The recognizer covers the ASCII texts this serial
protocol produces (Unicode digit transliteration is not modelled). -/
def is_numeric (s : List Char) : Bool :=
  match pyStrip s with
  | '+' :: r => numBody r
  | '-' :: r => numBody r
  | t => numBody t

/-- The expected header of src/main.py lines 14-16: the 21 field names. -/
def EXPECTED_HEADER : List (List Char) :=
  List.map String.data
    [ "AccX", "AccY", "AccZ", "GyroX", "GyroY", "GyroZ", "Roll", "Pitch",
      "YawIMU", "MagX", "MagY", "MagZ", "Lat", "Lon", "Alt", "Speed",
      "Course", "Sats", "PDOP", "HDOP", "VDOP"]

/-- The denylist of noise keywords of src/main.py lines 39-40. -/
def KEYWORDS : List (List Char) :=
  List.map String.data
    [ "hello", "error", "system", "baud", "find", "sensor", "connection",
      "boot", "rudder", "propeller", "zero", "unknown", "command"]

/-- The header marker tested at src/main.py lines 145 and 152. -/
def MARKER : List Char := "AccX,AccY,AccZ".data

/-- Keyword test of src/main.py line 38: some denylisted keyword occurs
in the lowercased cleaned line. -/
def hasKeyword (cleaned : List Char) : Bool :=
  KEYWORDS.any (fun kw => containsSub kw (List.map asciiLower cleaned))

/-- Decision core of is_csv_data_line on the already-cleaned line
(src/main.py lines 38-55).  The numeric-fraction test of line 52
compares the integer numeric count against len(parts) * 0.8 in floating
point; for every part count in the reachable band 15..25 that float
comparison coincides with the exact rational comparison
numeric_count * 5 < len(parts) * 4 used here. -/
def icdl (cleaned : List Char) : Bool :=
  if hasKeyword cleaned then false
  else if (splitComma cleaned).length < 15 ∨ 25 < (splitComma cleaned).length then false
  else if ((splitComma cleaned).countP (fun p => is_numeric (pyStrip p))) * 5 <
          (splitComma cleaned).length * 4 then false
  else true

/-- Embedding of is_csv_data_line (src/main.py lines 30-55): clean the
line (strip whitespace, delete control characters), then apply the
keyword, width and numeric-fraction tests. -/
def is_csv_data_line (line : List Char) : Bool :=
  icdl (stripCtl (pyStrip line))

/-- Outcome of the data-line heuristics, separating the three reject
reasons of is_csv_data_line: denylist keyword (noise), shape or numeric
fraction failure (unrecognized), or acceptance (candidate). -/
inductive DataClass where
  | noise
  | candidate
  | unrecognized
deriving DecidableEq

/-- Refinement of is_csv_data_line recording which branch of
src/main.py lines 38-55 decided the line. -/
def classifyData (line : List Char) : DataClass :=
  if hasKeyword (stripCtl (pyStrip line)) then DataClass.noise
  else if (splitComma (stripCtl (pyStrip line))).length < 15 ∨
          25 < (splitComma (stripCtl (pyStrip line))).length then
    DataClass.unrecognized
  else if ((splitComma (stripCtl (pyStrip line))).countP (fun p => is_numeric (pyStrip p))) * 5 <
          (splitComma (stripCtl (pyStrip line))).length * 4 then DataClass.unrecognized
  else DataClass.candidate

/-- Four-way classification of one line as the ingestion loop decides
it: the header test of src/main.py line 145 runs on the whitespace-
stripped (but not control-stripped) line, before the data heuristics. -/
inductive LineClass where
  | header
  | noise
  | candidate
  | unrecognized
deriving DecidableEq

/-- Classification of a decoded line by the ingestion loop: marker
containment on the stripped raw line first (src/main.py line 145),
then the is_csv_data_line heuristics with their reject reason. -/
def classifyLine (raw : List Char) : LineClass :=
  if containsSub MARKER (pyStrip raw) then LineClass.header
  else
    match classifyData (pyStrip raw) with
    | DataClass.noise => LineClass.noise
    | DataClass.candidate => LineClass.candidate
    | DataClass.unrecognized => LineClass.unrecognized

/-- The cleaned, comma-split, per-part-stripped parts list of
src/main.py lines 62-65. -/
def cleanParts (line : List Char) : List (List Char) :=
  (splitComma (stripCtl (pyStrip line))).map pyStrip

/-- The offset scan of src/main.py lines 68-80: at each suffix of the
parts list, when at least len(EXPECTED_HEADER) parts remain, greedily
take numeric parts from the first len(EXPECTED_HEADER) of them; succeed
when the run reaches the full expected length. -/
def findRun : List (List Char) → Option (List (List Char))
  | [] => none
  | p :: rest =>
    if EXPECTED_HEADER.length ≤ (p :: rest).length then
      if EXPECTED_HEADER.length ≤
         (((p :: rest).take EXPECTED_HEADER.length).takeWhile is_numeric).length then
        some ((((p :: rest).take EXPECTED_HEADER.length).takeWhile is_numeric).take
          EXPECTED_HEADER.length)
      else findRun rest
    else findRun rest

/-- Embedding of clean_csv_line (src/main.py lines 57-82): clean and
split the line, then scan the offsets left to right for a numeric run
of the expected length; none when no offset yields one. -/
def clean_csv_line (line : List Char) : Option (List (List Char)) :=
  findRun (cleanParts line)

/-- Session state threaded through the ingestion loop of main()
(src/main.py lines 126, 19-20): whether the header row was written, the
running record count, and the time of the last summary. -/
structure SessionState where
  header_written : Bool
  csv_message_count : Nat
  last_summary_time : Nat
deriving DecidableEq

/-- Observable effects of processing one line: the header row, a
timestamped data row, a parse-error diagnostic, a device/debug echo, or
a periodic summary of the record count. -/
inductive LogEvent where
  | headerRow (fields : List (List Char))
  | dataRow (time : Nat) (fields : List (List Char))
  | parseError (line : List Char)
  | deviceMsg (line : List Char)
  | summary (count : Nat)
deriving DecidableEq

/-- One iteration of the ingestion loop of src/main.py lines 136-175 on
a decoded line, under a synthetic clock: strip the line, skip it when
empty, write the header row on the first marker line and drop repeated
marker lines, and on a data candidate extract and log the record,
emitting a summary when 15 time units have elapsed since the last one;
returns the new state and the emitted events in order. -/
def processLine (st : SessionState) (now : Nat) (raw : List Char) :
    SessionState × List LogEvent :=
  if pyStrip raw = [] then (st, [])
  else if containsSub MARKER (pyStrip raw) && !st.header_written then
    ({ st with header_written := true }, [LogEvent.headerRow ("Timestamp".data :: EXPECTED_HEADER)])
  else if containsSub MARKER (pyStrip raw) && st.header_written then (st, [])
  else if is_csv_data_line (pyStrip raw) then
    match clean_csv_line (pyStrip raw) with
    | some data =>
      if 15 ≤ now - st.last_summary_time then
        ({ st with csv_message_count := 0, last_summary_time := now },
         [LogEvent.dataRow now data, LogEvent.summary (st.csv_message_count + 1)])
      else
        ({ st with csv_message_count := st.csv_message_count + 1 },
         [LogEvent.dataRow now data])
    | none => (st, [LogEvent.parseError (pyStrip raw)])
  else (st, [LogEvent.deviceMsg (pyStrip raw)])

/-- Process a finite sequence of (arrival time, decoded line) pairs,
threading the session state and concatenating the emitted events. -/
def processAll (st : SessionState) : List (Nat × List Char) → SessionState × List LogEvent
  | [] => (st, [])
  | p :: rest =>
    ((processAll (processLine st p.1 p.2).1 rest).1,
     (processLine st p.1 p.2).2 ++ (processAll (processLine st p.1 p.2).1 rest).2)

/-- Count the header rows among a list of emitted events. -/
def headerCount (evs : List LogEvent) : Nat :=
  (evs.filter (fun e => match e with | LogEvent.headerRow _ => true | _ => false)).length

/-- Count the summary events among a list of emitted events. -/
def summaryCount (evs : List LogEvent) : Nat :=
  (evs.filter (fun e => match e with | LogEvent.summary _ => true | _ => false)).length

/-- Success condition of the offset scan of clean_csv_line at offset i:
at least the expected number of parts remain and the first expected-
length window from i is entirely numeric. -/
def offsetOk (parts : List (List Char)) (i : Nat) : Bool :=
  (decide (EXPECTED_HEADER.length ≤ (parts.drop i).length)) &&
  ((parts.drop i).take EXPECTED_HEADER.length).all is_numeric

/-- A token is clean when it contains no delimiter and no control
character and carries no surrounding whitespace, so that joining with
commas and re-cleaning returns exactly the original tokens. -/
def cleanTok (t : List Char) : Bool :=
  t.all (fun c => !(c == ',') && !(isCtl c)) && (pyStrip t == t)

/-! Basic lemmas about dropWhile, takeWhile and filter. -/

/-- Dropping while a predicate holds skips a block that satisfies it. -/
theorem dw_all {p : Char → Bool} {u : List Char} (x : List Char)
    (hu : ∀ c ∈ u, p c = true) :
    (u ++ x).dropWhile p = x.dropWhile p := by
  induction u with
  | nil => rfl
  | cons c u ih =>
    simp only [List.cons_append, List.dropWhile_cons, hu c (by simp), if_true]
    exact ih fun d hd => hu d (by simp [hd])

/-- Case analysis for dropWhile over an append. -/
theorem dw_app_cases {p : Char → Bool} (x v : List Char) :
    (x ++ v).dropWhile p =
      (if x.dropWhile p = [] then v.dropWhile p else x.dropWhile p ++ v) := by
  induction x with
  | nil => simp
  | cons c x ih =>
    by_cases hc : p c = true
    · simpa [List.dropWhile_cons, hc] using ih
    · simp [List.dropWhile_cons, Bool.not_eq_true] at hc ⊢
      simp [hc]

/-- Membership in a dropWhile result comes from the original list. -/
theorem dw_mem {p : Char → Bool} {a : Char} {l : List Char}
    (h : a ∈ l.dropWhile p) : a ∈ l := by
  induction l with
  | nil => simp at h
  | cons c l ih =>
    rw [List.dropWhile_cons] at h
    by_cases hc : p c = true
    · simp only [hc, if_true] at h
      exact List.mem_cons_of_mem c (ih h)
    · simp only [hc, if_false] at h
      exact h

/-- A takeWhile of full length means every element satisfies p. -/
theorem tw_len_all {l : List (List Char)} {q : List Char → Bool}
    (h : (l.takeWhile q).length = l.length) : ∀ a ∈ l, q a = true := by
  intro a ha
  have hpre : l.takeWhile q <+: l := List.takeWhile_prefix q
  have : l.takeWhile q = l := List.IsPrefix.eq_of_length hpre h
  exact List.mem_takeWhile_imp (this ▸ ha)

/-! Lemmas about pyStrip. -/

/-- pyStrip of the empty list. -/
theorem ps_nil : pyStrip [] = [] := rfl

/-- A line splits as leading whitespace, its strip, and trailing
whitespace. -/
theorem ps_decomp (l : List Char) :
    ∃ u v, l = u ++ pyStrip l ++ v ∧ (∀ c ∈ u, isPySpace c = true) ∧
      (∀ c ∈ v, isPySpace c = true) := by
  refine ⟨l.takeWhile isPySpace,
    ((l.dropWhile isPySpace).reverse.takeWhile isPySpace).reverse, ?_, ?_, ?_⟩
  · conv_lhs => rw [← List.takeWhile_append_dropWhile (p := isPySpace) (l := l)]
    rw [List.append_assoc]
    congr 1
    conv_lhs =>
      rw [← List.reverse_reverse (l.dropWhile isPySpace),
        ← List.takeWhile_append_dropWhile (p := isPySpace)
          (l := (l.dropWhile isPySpace).reverse)]
    rw [List.reverse_append]
    rfl
  · exact fun c hc => List.mem_takeWhile_imp hc
  · intro c hc
    rw [List.mem_reverse] at hc
    exact List.mem_takeWhile_imp hc

/-- pyStrip ignores a leading all-whitespace block. -/
theorem ps_lapp {u : List Char} (x : List Char)
    (hu : ∀ c ∈ u, isPySpace c = true) : pyStrip (u ++ x) = pyStrip x := by
  unfold pyStrip
  rw [dw_all x hu]

/-- pyStrip ignores a trailing all-whitespace block. -/
theorem ps_rapp {v : List Char} (x : List Char)
    (hv : ∀ c ∈ v, isPySpace c = true) : pyStrip (x ++ v) = pyStrip x := by
  unfold pyStrip
  rw [dw_app_cases x v]
  by_cases hx : x.dropWhile isPySpace = []
  · rw [if_pos hx, hx]
    have : v.dropWhile isPySpace = [] := List.dropWhile_eq_nil_iff.mpr fun c hc => hv c hc
    rw [this]
  · rw [if_neg hx, List.reverse_append, dw_all _ (fun c hc => hv c (List.mem_reverse.mp hc))]

/-- pyStrip ignores whitespace affixes on both sides. -/
theorem ps_affix {u v : List Char} (x : List Char)
    (hu : ∀ c ∈ u, isPySpace c = true) (hv : ∀ c ∈ v, isPySpace c = true) :
    pyStrip (u ++ x ++ v) = pyStrip x := by
  rw [List.append_assoc, ps_lapp (x ++ v) hu, ps_rapp x hv]

/-- pyStrip is idempotent. -/
theorem ps_idem (l : List Char) : pyStrip (pyStrip l) = pyStrip l := by
  obtain ⟨u, v, hdec, hu, hv⟩ := ps_decomp l
  conv_rhs => rw [hdec]
  rw [ps_affix (pyStrip l) hu hv]

/-- Membership in pyStrip comes from the original list. -/
theorem ps_mem {a : Char} {l : List Char} (h : a ∈ pyStrip l) : a ∈ l := by
  unfold pyStrip at h
  rw [List.mem_reverse] at h
  have h2 := dw_mem h
  rw [List.mem_reverse] at h2
  exact dw_mem h2

/-! Lemmas about substring containment. -/

/-- A head match cannot start on a character different from the head of
the pattern. -/
theorem lm_head_ne {p0 : Char} {pat : List Char} {c : Char} {cs : List Char}
    (h : p0 ≠ c) : leadMatch (p0 :: pat) (c :: cs) = false := by
  simp [leadMatch, h]

/-- Containment is unchanged by a leading block of characters that
differ from the pattern head. -/
theorem cs_lapp {p0 : Char} {pat u : List Char} (y : List Char)
    (hu : ∀ c ∈ u, p0 ≠ c) :
    containsSub (p0 :: pat) (u ++ y) = containsSub (p0 :: pat) y := by
  induction u with
  | nil => rfl
  | cons c u ih =>
    rw [List.cons_append]
    show (leadMatch (p0 :: pat) (c :: (u ++ y)) || containsSub (p0 :: pat) (u ++ y)) = _
    rw [lm_head_ne (hu c (by simp)), Bool.false_or]
    exact ih fun d hd => hu d (by simp [hd])

/-- A head match is unchanged by a trailing block whose characters all
differ from every pattern character. -/
theorem lm_rapp {pat v : List Char} (y : List Char)
    (hd : ∀ p ∈ pat, ∀ c ∈ v, p ≠ c) :
    leadMatch pat (y ++ v) = leadMatch pat y := by
  induction pat generalizing y with
  | nil => rfl
  | cons p ps ih =>
    cases y with
    | nil =>
      cases v with
      | nil => rfl
      | cons c cs =>
        simp only [List.nil_append]
        rw [lm_head_ne (hd p (by simp) c (by simp))]
        rfl
    | cons c cs =>
      show ((p == c) && leadMatch ps (cs ++ v)) = ((p == c) && leadMatch ps cs)
      rw [ih cs (fun q hq d hdv => hd q (List.mem_cons_of_mem p hq) d hdv)]

/-- Containment is unchanged by a trailing block whose characters all
differ from every pattern character, for a nonempty pattern. -/
theorem cs_rapp {p0 : Char} {pat v : List Char} (y : List Char)
    (hd : ∀ p ∈ p0 :: pat, ∀ c ∈ v, p ≠ c) :
    containsSub (p0 :: pat) (y ++ v) = containsSub (p0 :: pat) y := by
  induction y with
  | nil =>
    rw [List.nil_append]
    have h1 : containsSub (p0 :: pat) (v ++ []) = containsSub (p0 :: pat) [] :=
      cs_lapp [] (fun c hc => hd p0 (by simp) c hc)
    rw [List.append_nil] at h1
    exact h1
  | cons c cs ih =>
    rw [List.cons_append]
    show (leadMatch (p0 :: pat) (c :: (cs ++ v)) || containsSub (p0 :: pat) (cs ++ v)) = _
    rw [show c :: (cs ++ v) = (c :: cs) ++ v from rfl, lm_rapp (c :: cs) hd, ih]
    rfl

/-- Containment of a nonempty non-whitespace pattern is unchanged by
whitespace affixes. -/
theorem cs_affix {p0 : Char} {pat u v : List Char} (y : List Char)
    (hp : ∀ p ∈ p0 :: pat, isPySpace p = false)
    (hu : ∀ c ∈ u, isPySpace c = true) (hv : ∀ c ∈ v, isPySpace c = true) :
    containsSub (p0 :: pat) (u ++ y ++ v) = containsSub (p0 :: pat) y := by
  have hne : ∀ p ∈ p0 :: pat, ∀ c, isPySpace c = true → p ≠ c := by
    intro p hpm c hc he
    have h1 := hp p hpm
    rw [he, hc] at h1
    exact Bool.noConfusion h1
  rw [List.append_assoc,
    cs_lapp (y ++ v) (fun c hc => hne p0 (by simp) c (hu c hc)),
    cs_rapp y (fun p hpm c hc => hne p hpm c (hv c hc))]

/-- Containment of a nonempty non-whitespace pattern is unchanged by
stripping surrounding whitespace. -/
theorem cs_strip {p0 : Char} {pat : List Char} (l : List Char)
    (hp : ∀ p ∈ p0 :: pat, isPySpace p = false) :
    containsSub (p0 :: pat) (pyStrip l) = containsSub (p0 :: pat) l := by
  obtain ⟨u, v, hdec, hu, hv⟩ := ps_decomp l
  conv_rhs => rw [hdec]
  rw [cs_affix (pyStrip l) hp hu hv]

/-- Containment of a nonempty non-whitespace pattern is unchanged by
stripping surrounding whitespace (unsplit pattern form). -/
theorem cs_strip_any (pat l : List Char) (hne : pat ≠ [])
    (hp : ∀ p ∈ pat, isPySpace p = false) :
    containsSub pat (pyStrip l) = containsSub pat l := by
  cases pat with
  | nil => exact absurd rfl hne
  | cons p0 ps => exact cs_strip l hp

/-! Lemmas about splitComma and joinComma. -/

/-- splitComma never returns the empty list. -/
theorem sc_ne_nil (l : List Char) : splitComma l ≠ [] := by
  cases l with
  | nil => simp [splitComma]
  | cons c rest =>
    rw [splitComma]
    by_cases hc : c = ','
    · simp [hc]
    · rw [if_neg hc]
      cases h : splitComma rest with
      | nil => simp
      | cons a as => simp

/-- splitComma of a comma-free list is that single part. -/
theorem sc_noComma {t : List Char} (ht : ∀ c ∈ t, c ≠ ',') :
    splitComma t = [t] := by
  induction t with
  | nil => rfl
  | cons c rest ih =>
    rw [splitComma, if_neg (ht c (by simp)), ih fun d hd => ht d (by simp [hd])]

/-- Splitting after prepending a comma-free block prepends the block to
the first part. -/
theorem sc_lapp {u : List Char} (x : List Char) (hu : ∀ c ∈ u, c ≠ ',') :
    ∃ h t, splitComma x = h :: t ∧ splitComma (u ++ x) = (u ++ h) :: t := by
  induction u with
  | nil =>
    cases hx : splitComma x with
    | nil => exact absurd hx (sc_ne_nil x)
    | cons h t => exact ⟨h, t, rfl, by simpa using hx⟩
  | cons c u ih =>
    obtain ⟨h, t, hx, hux⟩ := ih fun d hd => hu d (by simp [hd])
    refine ⟨h, t, hx, ?_⟩
    rw [List.cons_append, splitComma, if_neg (hu c (by simp)), hux]
    rfl

/-- Splitting after appending a comma-free block appends the block to
the last part. -/
theorem sc_rapp {v : List Char} (x : List Char) (hv : ∀ c ∈ v, c ≠ ',') :
    ∃ S h, splitComma x = S ++ [h] ∧ splitComma (x ++ v) = S ++ [h ++ v] := by
  induction x with
  | nil =>
    refine ⟨[], [], rfl, ?_⟩
    simp only [List.nil_append]
    exact sc_noComma hv
  | cons c x ih =>
    obtain ⟨S, h, hx, hxv⟩ := ih
    by_cases hc : c = ','
    · refine ⟨[] :: S, h, ?_, ?_⟩
      · rw [splitComma, if_pos hc, hx]
        rfl
      · rw [List.cons_append, splitComma, if_pos hc, hxv]
        rfl
    · cases S with
      | nil =>
        refine ⟨[], c :: h, ?_, ?_⟩
        · rw [splitComma, if_neg hc, hx]
          rfl
        · rw [List.cons_append, splitComma, if_neg hc, hxv]
          rfl
      | cons s S2 =>
        refine ⟨(c :: s) :: S2, h, ?_, ?_⟩
        · rw [splitComma, if_neg hc, hx]
          rfl
        · rw [List.cons_append, splitComma, if_neg hc, hxv]
          rfl

/-- splitComma undoes joinComma on a nonempty list of comma-free
tokens. -/
theorem sc_join {toks : List (List Char)} (hne : toks ≠ [])
    (hfree : ∀ t ∈ toks, ∀ c ∈ t, c ≠ ',') :
    splitComma (joinComma toks) = toks := by
  induction toks with
  | nil => exact absurd rfl hne
  | cons t ts ih =>
    cases ts with
    | nil => exact sc_noComma fun c hc => hfree t (by simp) c hc
    | cons t2 ts2 =>
      rw [joinComma]
      obtain ⟨h, tl, hx, hux⟩ :=
        sc_lapp (',' :: joinComma (t2 :: ts2)) (fun c hc => hfree t (by simp) c hc)
      rw [splitComma, if_pos rfl,
        ih (List.cons_ne_nil t2 ts2) (fun s hs c hc => hfree s (by simp [hs]) c hc)] at hx
      cases hx
      rw [hux]
      simp
      exact fun h => List.noConfusion h

/-! Invariance of the cleaned parts under whitespace stripping. -/

/-- Whitespace characters are not the delimiter. -/
theorem ws_ne_comma {c : Char} (h : isPySpace c = true) : c ≠ ',' := by
  intro he
  rw [he] at h
  exact absurd h (by decide)

/-- The comma-split, per-part-stripped parts list of a raw text. -/
def partsOf (x : List Char) : List (List Char) :=
  (splitComma x).map pyStrip

/-- The stripped parts ignore a leading whitespace block. -/
theorem po_lapp {u : List Char} (x : List Char)
    (hu : ∀ c ∈ u, isPySpace c = true) : partsOf (u ++ x) = partsOf x := by
  obtain ⟨h, t, hx, hux⟩ := sc_lapp x (fun c hc => ws_ne_comma (hu c hc))
  unfold partsOf
  rw [hux, hx, List.map_cons, List.map_cons, ps_lapp h hu]

/-- The stripped parts ignore a trailing whitespace block. -/
theorem po_rapp {v : List Char} (x : List Char)
    (hv : ∀ c ∈ v, isPySpace c = true) : partsOf (x ++ v) = partsOf x := by
  obtain ⟨S, h, hx, hxv⟩ := sc_rapp x (fun c hc => ws_ne_comma (hv c hc))
  unfold partsOf
  rw [hxv, hx, List.map_append, List.map_append, List.map_singleton,
    List.map_singleton, ps_rapp h hv]

/-- The stripped parts are unchanged by stripping the whole text. -/
theorem po_strip (x : List Char) : partsOf (pyStrip x) = partsOf x := by
  obtain ⟨u, v, hdec, hu, hv⟩ := ps_decomp x
  conv_rhs => rw [hdec, List.append_assoc, po_lapp (pyStrip x ++ v) hu,
    po_rapp (pyStrip x) hv]

/-- The part count is unchanged by stripping the whole text. -/
theorem len_strip (x : List Char) :
    (splitComma (pyStrip x)).length = (splitComma x).length := by
  have h1 : (partsOf (pyStrip x)).length = (partsOf x).length := by rw [po_strip]
  simpa [partsOf] using h1

/-- The numeric-part count is unchanged by stripping the whole text. -/
theorem cnt_strip (x : List Char) :
    (splitComma (pyStrip x)).countP (fun p => is_numeric (pyStrip p)) =
    (splitComma x).countP (fun p => is_numeric (pyStrip p)) := by
  have h1 : (partsOf (pyStrip x)).countP is_numeric = (partsOf x).countP is_numeric := by
    rw [po_strip]
  simpa [partsOf, List.countP_map, Function.comp] using h1

/-! Invariance of the keyword test under whitespace stripping. -/

/-- Lowering does not move a character out of the whitespace class. -/
theorem low_ws {c : Char} (h : isPySpace c = true) : asciiLower c = c := by
  unfold isPySpace at h
  simp only [Bool.or_eq_true, Bool.and_eq_true, decide_eq_true_eq] at h
  unfold asciiLower
  rw [if_neg]
  simp only [Bool.and_eq_true, decide_eq_true_eq, not_and]
  omega

/-- Containment of a nonempty non-whitespace pattern in the lowered text
is unchanged by stripping surrounding whitespace. -/
theorem cs_low_strip (pat x : List Char) (hne : pat ≠ [])
    (hp : ∀ p ∈ pat, isPySpace p = false) :
    containsSub pat (List.map asciiLower (pyStrip x)) =
    containsSub pat (List.map asciiLower x) := by
  cases pat with
  | nil => exact absurd rfl hne
  | cons p0 ps =>
    obtain ⟨u, v, hdec, hu, hv⟩ := ps_decomp x
    conv_rhs => rw [hdec]
    rw [List.map_append, List.map_append]
    have hu2 : ∀ c ∈ List.map asciiLower u, isPySpace c = true := by
      intro c hc
      obtain ⟨d, hd, hdc⟩ := List.mem_map.mp hc
      rw [← hdc, low_ws (hu d hd)]
      exact hu d hd
    have hv2 : ∀ c ∈ List.map asciiLower v, isPySpace c = true := by
      intro c hc
      obtain ⟨d, hd, hdc⟩ := List.mem_map.mp hc
      rw [← hdc, low_ws (hv d hd)]
      exact hv d hd
    exact (cs_affix (List.map asciiLower (pyStrip x)) hp hu2 hv2).symm

/-- Pointwise equal predicates give the same any. -/
theorem any_ext {α : Type} {l : List α} {f g : α → Bool}
    (h : ∀ a ∈ l, f a = g a) : l.any f = l.any g := by
  induction l with
  | nil => rfl
  | cons a t ih =>
    rw [List.any_cons, List.any_cons, h a (by simp), ih fun b hb => h b (by simp [hb])]

/-- The keyword test is unchanged by stripping the whole text. -/
theorem hk_strip (x : List Char) : hasKeyword (pyStrip x) = hasKeyword x := by
  have hK : ∀ kw ∈ KEYWORDS, kw ≠ [] ∧ ∀ p ∈ kw, isPySpace p = false := by decide
  unfold hasKeyword
  exact any_ext fun kw hkw =>
    cs_low_strip kw x (hK kw hkw).1 (hK kw hkw).2

/-! The cleaned line of a pre-control-stripped input. -/

/-- Cleaning the control-stripped line equals stripping the cleaned
line: the two cleaning orders agree up to outer whitespace. -/
theorem cleaned_stripCtl (l : List Char) :
    stripCtl (pyStrip (stripCtl l)) = pyStrip (stripCtl (pyStrip l)) := by
  obtain ⟨u, v, hdec, hu, hv⟩ := ps_decomp l
  have hsc : stripCtl l = stripCtl u ++ stripCtl (pyStrip l) ++ stripCtl v := by
    conv_lhs => rw [hdec]
    unfold stripCtl
    rw [List.filter_append, List.filter_append]
  have hu2 : ∀ c ∈ stripCtl u, isPySpace c = true := fun c hc =>
    hu c (List.mem_of_mem_filter hc)
  have hv2 : ∀ c ∈ stripCtl v, isPySpace c = true := fun c hc =>
    hv c (List.mem_of_mem_filter hc)
  rw [hsc, ps_affix (stripCtl (pyStrip l)) hu2 hv2]
  unfold stripCtl
  apply List.filter_eq_self.mpr
  intro a ha
  exact (List.mem_filter.mp (ps_mem ha)).2

/-! Invariance of the heuristics under the two cleaning passes. -/

/-- The data-line decision core is unchanged by stripping the cleaned
line. -/
theorem icdl_strip (x : List Char) : icdl (pyStrip x) = icdl x := by
  unfold icdl
  rw [hk_strip, len_strip, cnt_strip]

/-- is_csv_data_line gives the same verdict on a control-stripped line. -/
theorem icd_stripCtl (l : List Char) :
    is_csv_data_line (stripCtl l) = is_csv_data_line l := by
  unfold is_csv_data_line
  rw [cleaned_stripCtl, icdl_strip]

/-- classifyData gives the same verdict on a control-stripped line. -/
theorem cdata_stripCtl (l : List Char) :
    classifyData (stripCtl l) = classifyData l := by
  unfold classifyData
  rw [cleaned_stripCtl, hk_strip, len_strip, cnt_strip]

/-- The extractor parts are the same on a control-stripped line. -/
theorem cleanParts_stripCtl (l : List Char) :
    cleanParts (stripCtl l) = cleanParts l := by
  show partsOf (stripCtl (pyStrip (stripCtl l))) = partsOf (stripCtl (pyStrip l))
  rw [cleaned_stripCtl, po_strip]

/-- clean_csv_line gives the same result on a control-stripped line. -/
theorem ccl_stripCtl (l : List Char) :
    clean_csv_line (stripCtl l) = clean_csv_line l := by
  unfold clean_csv_line
  rw [cleanParts_stripCtl]

/-- is_csv_data_line gives the same verdict on a pre-stripped line. -/
theorem icd_strip_raw (l : List Char) :
    is_csv_data_line (pyStrip l) = is_csv_data_line l := by
  unfold is_csv_data_line
  rw [ps_idem]

/-- clean_csv_line gives the same result on a pre-stripped line. -/
theorem ccl_strip_raw (l : List Char) :
    clean_csv_line (pyStrip l) = clean_csv_line l := by
  unfold clean_csv_line cleanParts
  rw [ps_idem]

/-! Lemmas about the offset scan of the extractor. -/

/-- The expected record width. -/
theorem hn21 : EXPECTED_HEADER.length = 21 := rfl

/-- The scan fails when fewer parts remain than the expected width. -/
theorem fr_none_short :
    ∀ ps : List (List Char), ps.length < EXPECTED_HEADER.length → findRun ps = none := by
  intro ps
  induction ps with
  | nil => intro _; rfl
  | cons p rest ih =>
    intro h
    rw [findRun, if_neg (by omega)]
    apply ih
    simp only [List.length_cons] at h
    omega

/-- The success condition at a shifted offset on a tail. -/
theorem offsetOk_cons (p : List Char) (rest : List (List Char)) (j : Nat) :
    offsetOk (p :: rest) (j + 1) = offsetOk rest j := rfl

/-- The scan succeeds at the first good offset and returns that window:
when every earlier offset fails and offset i carries a fully numeric
window of the expected width, findRun returns exactly that window. -/
theorem fr_first :
    ∀ (i : Nat) (ps : List (List Char)),
      (∀ j, j < i → offsetOk ps j = false) → offsetOk ps i = true →
      findRun ps = some ((ps.drop i).take EXPECTED_HEADER.length) := by
  intro i
  induction i with
  | zero =>
    intro ps _ hok
    rw [offsetOk, List.drop_zero, Bool.and_eq_true] at hok
    obtain ⟨h1, h2⟩ := hok
    rw [decide_eq_true_eq] at h1
    cases ps with
    | nil =>
      rw [hn21, List.length_nil] at h1
      exact absurd h1 (by omega)
    | cons p rest =>
      have htw : ((p :: rest).take EXPECTED_HEADER.length).takeWhile is_numeric =
          (p :: rest).take EXPECTED_HEADER.length :=
        List.takeWhile_eq_self_iff.mpr (List.all_eq_true.mp h2)
      rw [findRun, if_pos h1, htw, if_pos, List.drop_zero, List.take_take, Nat.min_self]
      rw [List.length_take]
      omega
  | succ i ih =>
    intro ps h0 hok
    cases ps with
    | nil =>
      rw [offsetOk, List.drop_nil] at hok
      simp [hn21] at hok
    | cons p rest =>
      have hko0 := h0 0 (Nat.succ_pos i)
      have hstep : findRun (p :: rest) = findRun rest := by
        rw [findRun]
        by_cases h1 : EXPECTED_HEADER.length ≤ (p :: rest).length
        · rw [if_pos h1, if_neg]
          intro h2
          have hlen : (((p :: rest).take EXPECTED_HEADER.length).takeWhile is_numeric).length =
              ((p :: rest).take EXPECTED_HEADER.length).length := by
            have hle : (((p :: rest).take EXPECTED_HEADER.length).takeWhile is_numeric).length ≤
                ((p :: rest).take EXPECTED_HEADER.length).length :=
              List.Sublist.length_le (List.takeWhile_sublist is_numeric)
            rw [List.length_take] at hle ⊢
            omega
          have hall : ∀ a ∈ (p :: rest).take EXPECTED_HEADER.length, is_numeric a = true :=
            tw_len_all hlen
          rw [offsetOk, List.drop_zero,
            decide_eq_true (by omega : EXPECTED_HEADER.length ≤ (p :: rest).length),
            Bool.true_and] at hko0
          rw [List.all_eq_true.mpr hall] at hko0
          exact Bool.noConfusion hko0
        · rw [if_neg h1]
      rw [hstep]
      rw [offsetOk_cons] at hok
      exact ih rest (fun j hj => by rw [← offsetOk_cons p]; exact h0 (j + 1) (by omega)) hok

/-- Soundness of the scan: a returned record has the expected width and
every token in it is numeric. -/
theorem fr_sound :
    ∀ (ps : List (List Char)) (r : List (List Char)), findRun ps = some r →
      r.length = EXPECTED_HEADER.length ∧ ∀ t ∈ r, is_numeric t = true := by
  intro ps
  induction ps with
  | nil => intro r h; exact absurd h (by simp [findRun])
  | cons p rest ih =>
    intro r h
    rw [findRun] at h
    by_cases h1 : EXPECTED_HEADER.length ≤ (p :: rest).length
    · rw [if_pos h1] at h
      by_cases h2 : EXPECTED_HEADER.length ≤
          (((p :: rest).take EXPECTED_HEADER.length).takeWhile is_numeric).length
      · rw [if_pos h2, Option.some_inj] at h
        subst h
        constructor
        · rw [List.length_take]
          omega
        · intro t ht
          exact List.mem_takeWhile_imp (List.take_subset _ _ ht)
      · rw [if_neg h2] at h
        exact ih r h
    · rw [if_neg h1] at h
      exact ih r h

/-! Reconstruction of the cleaned parts of a comma-join of clean
tokens. -/

/-- Characters of a comma-join are delimiter commas or token
characters. -/
theorem join_mem {c : Char} :
    ∀ {toks : List (List Char)}, c ∈ joinComma toks →
      c = ',' ∨ ∃ t ∈ toks, c ∈ t := by
  intro toks
  induction toks with
  | nil => intro h; simp [joinComma] at h
  | cons t ts ih =>
    intro h
    cases ts with
    | nil =>
      have h2 : c ∈ t := h
      exact Or.inr ⟨t, by simp, h2⟩
    | cons t2 ts2 =>
      have h2 : c ∈ t ++ ',' :: joinComma (t2 :: ts2) := h
      rcases List.mem_append.mp h2 with h3 | h4
      · exact Or.inr ⟨t, by simp, h3⟩
      · rcases List.mem_cons.mp h4 with h5 | h6
        · exact Or.inl h5
        · rcases ih h6 with h7 | ⟨s, hs, hcs⟩
          · exact Or.inl h7
          · exact Or.inr ⟨s, by simp [hs], hcs⟩

/-- Unpacking of the clean-token condition. -/
theorem cleanTok_spec {t : List Char} (h : cleanTok t = true) :
    (∀ c ∈ t, c ≠ ',' ∧ isCtl c = false) ∧ pyStrip t = t := by
  rw [cleanTok, Bool.and_eq_true, List.all_eq_true] at h
  obtain ⟨h1, h2⟩ := h
  refine ⟨fun c hc => ?_, by simpa using h2⟩
  have h3 := h1 c hc
  rw [Bool.and_eq_true] at h3
  obtain ⟨ha, hb⟩ := h3
  constructor
  · intro he
    rw [he] at ha
    simp at ha
  · simpa using hb

/-- Mapping a function that fixes every element is the identity. -/
theorem map_fix {α : Type} {l : List α} {f : α → α} (h : ∀ a ∈ l, f a = a) :
    l.map f = l := by
  induction l with
  | nil => rfl
  | cons a t ih => rw [List.map_cons, h a (by simp), ih fun b hb => h b (by simp [hb])]

/-- Cleaning and splitting a comma-join of clean tokens returns exactly
the tokens. -/
theorem cleanParts_join {toks : List (List Char)} (hne : toks ≠ [])
    (hct : ∀ t ∈ toks, cleanTok t = true) :
    cleanParts (joinComma toks) = toks := by
  have hnoctl : stripCtl (pyStrip (joinComma toks)) = pyStrip (joinComma toks) := by
    unfold stripCtl
    apply List.filter_eq_self.mpr
    intro a ha
    rcases join_mem (ps_mem ha) with h1 | ⟨t, ht, hat⟩
    · rw [h1]; decide
    · have h2 := ((cleanTok_spec (hct t ht)).1 a hat).2
      simp [h2]
  show partsOf (stripCtl (pyStrip (joinComma toks))) = toks
  rw [hnoctl, po_strip]
  unfold partsOf
  rw [sc_join hne (fun t ht c hc => ((cleanTok_spec (hct t ht)).1 c hc).1)]
  exact map_fix fun t ht => (cleanTok_spec (hct t ht)).2

/-- Realignment core: a line of clean non-numeric junk tokens followed
by exactly the expected number of clean numeric tokens extracts to
precisely the numeric tokens. -/
theorem realign {junk nums : List (List Char)}
    (hj : ∀ t ∈ junk, cleanTok t = true) (hn : ∀ t ∈ nums, cleanTok t = true)
    (hjn : ∀ t ∈ junk, is_numeric t = false) (hnn : ∀ t ∈ nums, is_numeric t = true)
    (hlen : nums.length = EXPECTED_HEADER.length) :
    clean_csv_line (joinComma (junk ++ nums)) = some nums := by
  have hne : junk ++ nums ≠ [] := by
    intro h
    have h2 : nums = [] := (List.append_eq_nil.mp h).2
    rw [h2, hn21] at hlen
    simp at hlen
  have hparts : cleanParts (joinComma (junk ++ nums)) = junk ++ nums :=
    cleanParts_join hne (fun t ht => by
      rcases List.mem_append.mp ht with h | h
      · exact hj t h
      · exact hn t h)
  have hok : offsetOk (junk ++ nums) junk.length = true := by
    rw [offsetOk, List.drop_left, ← hlen, List.take_length,
      decide_eq_true (Nat.le_refl _), Bool.true_and]
    exact List.all_eq_true.mpr hnn
  have hbad : ∀ j, j < junk.length → offsetOk (junk ++ nums) j = false := by
    intro j hjlt
    apply Bool.eq_false_iff.mpr
    intro htrue
    rw [offsetOk, Bool.and_eq_true] at htrue
    obtain ⟨h1, h2⟩ := htrue
    have hdj : (junk ++ nums).drop j = junk.drop j ++ nums :=
      List.drop_append_of_le_length (Nat.le_of_lt hjlt)
    cases hx : junk.drop j with
    | nil =>
      have h3 := List.drop_eq_nil_iff.mp hx
      omega
    | cons x d =>
      rw [hdj, hx, List.cons_append, hn21,
        show (21 : Nat) = 20 + 1 from rfl, List.take_succ_cons, List.all_eq_true] at h2
      have hxj : x ∈ junk := List.drop_subset j junk (hx ▸ List.mem_cons_self x d)
      have h4 := h2 x (List.mem_cons_self _ _)
      rw [hjn x hxj] at h4
      exact Bool.noConfusion h4
  unfold clean_csv_line
  rw [hparts, fr_first junk.length (junk ++ nums) hbad hok, List.drop_left, ← hlen,
    List.take_length]

/-! Lemmas about one step of the ingestion loop. -/

/-- A line that passes the data heuristics is nonempty after
stripping. -/
theorem icd_nonempty {l : List Char} (h : is_csv_data_line l = true) :
    pyStrip l ≠ [] := by
  intro hnil
  rw [← icd_strip_raw l, hnil] at h
  exact absurd h (by decide)

/-- Step on an all-whitespace line: skipped with no effect. -/
theorem pl_empty (st : SessionState) (now : Nat) {raw : List Char}
    (h0 : pyStrip raw = []) : processLine st now raw = (st, []) := by
  rw [processLine, if_pos h0]

/-- Step on the first marker line: the header row is written once and
remembered. -/
theorem pl_header_new (st : SessionState) (now : Nat) {raw : List Char}
    (hm : containsSub MARKER (pyStrip raw) = true)
    (hw : st.header_written = false) :
    processLine st now raw =
      ({ st with header_written := true },
       [LogEvent.headerRow ("Timestamp".data :: EXPECTED_HEADER)]) := by
  have h0 : pyStrip raw ≠ [] := by
    intro hnil
    rw [hnil] at hm
    exact absurd hm (by decide)
  have hm1 : (containsSub MARKER (pyStrip raw) && !st.header_written) = true := by
    simp [hm, hw]
  rw [processLine, if_neg h0, if_pos hm1]

/-- Step on a repeated marker line: dropped with no effect at all. -/
theorem pl_header_rep (st : SessionState) (now : Nat) {raw : List Char}
    (hm : containsSub MARKER (pyStrip raw) = true)
    (hw : st.header_written = true) :
    processLine st now raw = (st, []) := by
  have h0 : pyStrip raw ≠ [] := by
    intro hnil
    rw [hnil] at hm
    exact absurd hm (by decide)
  have hm1 : ¬ (containsSub MARKER (pyStrip raw) && !st.header_written) = true := by
    simp [hm, hw]
  have hm2 : (containsSub MARKER (pyStrip raw) && st.header_written) = true := by
    simp [hm, hw]
  rw [processLine, if_neg h0, if_neg hm1, if_pos hm2]

/-- Step on a candidate line whose extraction fails: only the
parse-error diagnostic is emitted and the state is unchanged. -/
theorem pl_parse_error (st : SessionState) (now : Nat) {raw : List Char}
    (hM : containsSub MARKER (pyStrip raw) = false)
    (hC : is_csv_data_line raw = true) (hX : clean_csv_line raw = none) :
    processLine st now raw = (st, [LogEvent.parseError (pyStrip raw)]) := by
  have hC2 : is_csv_data_line (pyStrip raw) = true := by rw [icd_strip_raw]; exact hC
  have hX2 : clean_csv_line (pyStrip raw) = none := by rw [ccl_strip_raw]; exact hX
  have hm1 : ¬ (containsSub MARKER (pyStrip raw) && !st.header_written) = true := by
    simp [hM]
  have hm2 : ¬ (containsSub MARKER (pyStrip raw) && st.header_written) = true := by
    simp [hM]
  rw [processLine, if_neg (icd_nonempty hC), if_neg hm1, if_neg hm2, if_pos hC2, hX2]

/-- Step on a candidate line that extracts when the summary interval has
elapsed: one data row, one summary of the incremented count, counter and
timestamp reset. -/
theorem pl_record_summary (st : SessionState) (now : Nat) {raw : List Char}
    {r : List (List Char)}
    (hM : containsSub MARKER (pyStrip raw) = false)
    (hC : is_csv_data_line raw = true) (hX : clean_csv_line raw = some r)
    (h15 : 15 ≤ now - st.last_summary_time) :
    processLine st now raw =
      ({ st with csv_message_count := 0, last_summary_time := now },
       [LogEvent.dataRow now r, LogEvent.summary (st.csv_message_count + 1)]) := by
  have hC2 : is_csv_data_line (pyStrip raw) = true := by rw [icd_strip_raw]; exact hC
  have hX2 : clean_csv_line (pyStrip raw) = some r := by rw [ccl_strip_raw]; exact hX
  have hm1 : ¬ (containsSub MARKER (pyStrip raw) && !st.header_written) = true := by
    simp [hM]
  have hm2 : ¬ (containsSub MARKER (pyStrip raw) && st.header_written) = true := by
    simp [hM]
  rw [processLine, if_neg (icd_nonempty hC), if_neg hm1, if_neg hm2, if_pos hC2, hX2]
  dsimp only
  rw [if_pos h15]

/-- Step on a candidate line that extracts before the summary interval
has elapsed: one data row, counter incremented, timestamp kept. -/
theorem pl_record_plain (st : SessionState) (now : Nat) {raw : List Char}
    {r : List (List Char)}
    (hM : containsSub MARKER (pyStrip raw) = false)
    (hC : is_csv_data_line raw = true) (hX : clean_csv_line raw = some r)
    (h15 : ¬ 15 ≤ now - st.last_summary_time) :
    processLine st now raw =
      ({ st with csv_message_count := st.csv_message_count + 1 },
       [LogEvent.dataRow now r]) := by
  have hC2 : is_csv_data_line (pyStrip raw) = true := by rw [icd_strip_raw]; exact hC
  have hX2 : clean_csv_line (pyStrip raw) = some r := by rw [ccl_strip_raw]; exact hX
  have hm1 : ¬ (containsSub MARKER (pyStrip raw) && !st.header_written) = true := by
    simp [hM]
  have hm2 : ¬ (containsSub MARKER (pyStrip raw) && st.header_written) = true := by
    simp [hM]
  rw [processLine, if_neg (icd_nonempty hC), if_neg hm1, if_neg hm2, if_pos hC2, hX2]
  dsimp only
  rw [if_neg h15]

/-- Step on a nonempty non-marker line that fails the data heuristics:
echoed as a device message with no state change. -/
theorem pl_device (st : SessionState) (now : Nat) {raw : List Char}
    (h0 : pyStrip raw ≠ []) (hM : containsSub MARKER (pyStrip raw) = false)
    (hC : is_csv_data_line raw = false) :
    processLine st now raw = (st, [LogEvent.deviceMsg (pyStrip raw)]) := by
  have hC2 : ¬ is_csv_data_line (pyStrip raw) = true := by
    rw [icd_strip_raw, hC]
    decide
  have hm1 : ¬ (containsSub MARKER (pyStrip raw) && !st.header_written) = true := by
    simp [hM]
  have hm2 : ¬ (containsSub MARKER (pyStrip raw) && st.header_written) = true := by
    simp [hM]
  rw [processLine, if_neg h0, if_neg hm1, if_neg hm2, if_neg hC2]

/-! Counting header rows over a run of the loop. -/

/-- headerCount distributes over concatenation. -/
theorem hc_append (a b : List LogEvent) :
    headerCount (a ++ b) = headerCount a + headerCount b := by
  unfold headerCount
  rw [List.filter_append, List.length_append]

/-- Once the header is recorded as written, a step writes no further
header row and keeps the flag set. -/
theorem pl_hw_true (st : SessionState) (now : Nat) (raw : List Char)
    (hw : st.header_written = true) :
    (processLine st now raw).1.header_written = true ∧
    headerCount (processLine st now raw).2 = 0 := by
  by_cases h0 : pyStrip raw = []
  · rw [pl_empty st now h0]
    exact ⟨hw, rfl⟩
  by_cases hm : containsSub MARKER (pyStrip raw) = true
  · rw [pl_header_rep st now hm hw]
    exact ⟨hw, rfl⟩
  have hm2 : containsSub MARKER (pyStrip raw) = false := Bool.eq_false_iff.mpr hm
  by_cases hc : is_csv_data_line (pyStrip raw) = true
  · have hc2 : is_csv_data_line raw = true := by rw [← icd_strip_raw]; exact hc
    cases hcl : clean_csv_line raw with
    | none =>
      rw [pl_parse_error st now hm2 hc2 hcl]
      exact ⟨hw, rfl⟩
    | some r =>
      by_cases h15 : 15 ≤ now - st.last_summary_time
      · rw [pl_record_summary st now hm2 hc2 hcl h15]
        exact ⟨hw, rfl⟩
      · rw [pl_record_plain st now hm2 hc2 hcl h15]
        exact ⟨hw, rfl⟩
  · have hc2 : is_csv_data_line raw = false := by
      rw [← icd_strip_raw]
      exact Bool.eq_false_iff.mpr hc
    rw [pl_device st now h0 hm2 hc2]
    exact ⟨hw, rfl⟩

/-- A step on a non-marker line keeps the header flag and writes no
header row. -/
theorem pl_no_marker (st : SessionState) (now : Nat) (raw : List Char)
    (hM : containsSub MARKER (pyStrip raw) = false) :
    (processLine st now raw).1.header_written = st.header_written ∧
    headerCount (processLine st now raw).2 = 0 := by
  by_cases h0 : pyStrip raw = []
  · rw [pl_empty st now h0]
    exact ⟨rfl, rfl⟩
  by_cases hc : is_csv_data_line (pyStrip raw) = true
  · have hc2 : is_csv_data_line raw = true := by rw [← icd_strip_raw]; exact hc
    cases hcl : clean_csv_line raw with
    | none =>
      rw [pl_parse_error st now hM hc2 hcl]
      exact ⟨rfl, rfl⟩
    | some r =>
      by_cases h15 : 15 ≤ now - st.last_summary_time
      · rw [pl_record_summary st now hM hc2 hcl h15]
        exact ⟨rfl, rfl⟩
      · rw [pl_record_plain st now hM hc2 hcl h15]
        exact ⟨rfl, rfl⟩
  · have hc2 : is_csv_data_line raw = false := by
      rw [← icd_strip_raw]
      exact Bool.eq_false_iff.mpr hc
    rw [pl_device st now h0 hM hc2]
    exact ⟨rfl, rfl⟩

/-- Whether some line of a timed input sequence contains the header
marker after stripping. -/
def hasMarkerLine (lines : List (Nat × List Char)) : Bool :=
  lines.any (fun p => containsSub MARKER (pyStrip p.2))

/-- Invariant of a full run: the number of header rows written is one
exactly when the header was still unwritten and some line carries the
marker, and the final flag records whether any header was ever seen. -/
theorem pa_header_inv :
    ∀ (lines : List (Nat × List Char)) (st : SessionState),
      headerCount (processAll st lines).2 =
        (if st.header_written = false ∧ hasMarkerLine lines = true then 1 else 0) ∧
      (processAll st lines).1.header_written =
        (st.header_written || hasMarkerLine lines) := by
  intro lines
  induction lines with
  | nil =>
    intro st
    constructor
    · rw [processAll]
      simp [headerCount, hasMarkerLine]
    · rw [processAll]
      simp [hasMarkerLine]
  | cons p rest ih =>
    intro st
    have hml : hasMarkerLine (p :: rest) =
        (containsSub MARKER (pyStrip p.2) || hasMarkerLine rest) := by
      unfold hasMarkerLine
      rw [List.any_cons]
    rw [processAll, hc_append, hml]
    by_cases hw : st.header_written = true
    · obtain ⟨hs1, hc1⟩ := pl_hw_true st p.1 p.2 hw
      obtain ⟨ihc, ihs⟩ := ih (processLine st p.1 p.2).1
      rw [hc1, ihc, hs1, ihs, hw]
      constructor
      · simp
      · simp [hs1]
    · have hwf : st.header_written = false := Bool.eq_false_iff.mpr hw
      by_cases hm : containsSub MARKER (pyStrip p.2) = true
      · rw [pl_header_new st p.1 hm hwf]
        obtain ⟨ihc, ihs⟩ := ih { st with header_written := true }
        rw [ihc, ihs]
        constructor
        · simp [headerCount, hwf, hm]
        · simp [hm]
      · have hm2 : containsSub MARKER (pyStrip p.2) = false := Bool.eq_false_iff.mpr hm
        obtain ⟨hs1, hc1⟩ := pl_no_marker st p.1 p.2 hm2
        obtain ⟨ihc, ihs⟩ := ih (processLine st p.1 p.2).1
        rw [hc1, ihc, hs1, ihs, hwf, hm2]
        constructor
        · simp
        · simp [hs1, hwf]

/-- A step emits a summary only on a record-producing candidate line
and only when the summary interval has elapsed. -/
theorem pl_summary_shape (st : SessionState) (now : Nat) (raw : List Char)
    (h : summaryCount (processLine st now raw).2 ≠ 0) :
    15 ≤ now - st.last_summary_time ∧ is_csv_data_line raw = true ∧
      (clean_csv_line raw).isSome = true ∧
      containsSub MARKER (pyStrip raw) = false := by
  by_cases h0 : pyStrip raw = []
  · rw [pl_empty st now h0] at h
    exact absurd rfl h
  by_cases hm : containsSub MARKER (pyStrip raw) = true
  · by_cases hw : st.header_written = true
    · rw [pl_header_rep st now hm hw] at h
      exact absurd rfl h
    · rw [pl_header_new st now hm (Bool.eq_false_iff.mpr hw)] at h
      exact absurd rfl h
  have hm2 : containsSub MARKER (pyStrip raw) = false := Bool.eq_false_iff.mpr hm
  by_cases hc : is_csv_data_line (pyStrip raw) = true
  · have hc2 : is_csv_data_line raw = true := by rw [← icd_strip_raw]; exact hc
    cases hcl : clean_csv_line raw with
    | none =>
      rw [pl_parse_error st now hm2 hc2 hcl] at h
      exact absurd rfl h
    | some r =>
      by_cases h15 : 15 ≤ now - st.last_summary_time
      · exact ⟨h15, hc2, by simp [hcl], hm2⟩
      · rw [pl_record_plain st now hm2 hc2 hcl h15] at h
        exact absurd rfl h
  · have hc2 : is_csv_data_line raw = false := by
      rw [← icd_strip_raw]
      exact Bool.eq_false_iff.mpr hc
    rw [pl_device st now h0 hm2 hc2] at h
    exact absurd rfl h

/-- Marker containment survives whitespace stripping. -/
theorem marker_strip (l : List Char) :
    containsSub MARKER (pyStrip l) = containsSub MARKER l :=
  cs_strip_any MARKER l (by decide) (by decide)

/-! Concrete inputs used by the witnesses and counterexamples. -/

/-- The 21 numeric tokens 0.1 .. 2.1 used by the realignment witness. -/
def wNumsA : List (List Char) :=
  List.map String.data
    [ "0.1", "0.2", "0.3", "0.4", "0.5", "0.6", "0.7", "0.8", "0.9", "1.0",
      "1.1", "1.2", "1.3", "1.4", "1.5", "1.6", "1.7", "1.8", "1.9", "2.0", "2.1"]

/-- Two non-numeric junk tokens for the realignment witness. -/
def wJunk : List (List Char) := List.map String.data [ "x", "y"]

/-- The 21 numeric tokens 1..21 as text. -/
def wNumsB : List (List Char) :=
  List.map String.data
    [ "1", "2", "3", "4", "5", "6", "7", "8", "9", "10", "11", "12", "13",
      "14", "15", "16", "17", "18", "19", "20", "21"]

/-- A plain 21-value record line. -/
def wRec21 : List Char := "1,2,3,4,5,6,7,8,9,10,11,12,13,14,15,16,17,18,19,20,21".data

/-- A 15-value line: passes the classifier but is too short to extract. -/
def wLine15 : List Char := "1,2,3,4,5,6,7,8,9,10,11,12,13,14,15".data

/-- A 14-value line: below the width band. -/
def wLine14 : List Char := "1,2,3,4,5,6,7,8,9,10,11,12,13,14".data

/-- An 18-value line: candidate-shaped but too short to extract. -/
def wLine18 : List Char := "1,2,3,4,5,6,7,8,9,10,11,12,13,14,15,16,17,18".data

/-- A 25-value line: at the upper edge of the width band. -/
def wLine25 : List Char :=
  "1,2,3,4,5,6,7,8,9,10,11,12,13,14,15,16,17,18,19,20,21,22,23,24,25".data

/-- A keyword-bearing line that is otherwise numeric-shaped. -/
def wNoise : List Char := "hello,1,2,3,4,5,6,7,8,9,10,11,12,13,14,15,16,17,18,19,20".data

/-- A 20-part line with exactly 16 numeric parts (the 80 percent
floor). -/
def wFrac16 : List Char := "a,b,c,d,1,2,3,4,5,6,7,8,9,10,11,12,13,14,15,16".data

/-- A 20-part line with 15 numeric parts (one below the floor). -/
def wFrac15 : List Char := "a,b,c,d,e,1,2,3,4,5,6,7,8,9,10,11,12,13,14,15".data

/-- A device header line carrying the marker. -/
def wHdr : List Char := "AccX,AccY,AccZ,GyroX,GyroY,GyroZ".data

/-- The marker interrupted by a NUL byte: raw containment fails while
the control-stripped form contains the marker. -/
def wCtl : List Char := "AccX,AccY,Ac\x00cZ".data

/-- A debug line carrying a denylisted keyword. -/
def wNoiseLine : List Char := "hello boot".data

/-- A timed input sequence carrying the marker twice. -/
def wTimedLines : List (Nat × List Char) := [(0, wHdr), (1, wHdr)]

/-! The claims. -/

/-- C1: for every input line, clean_csv_line returns the window
parts[i..i+20] at the smallest offset i at which the greedy numeric run
over the cleaned comma-split parts reaches the expected N=21 values
(trailing parts truncated); in particular a line of exactly k clean
non-numeric leading tokens followed by 21 clean numeric tokens extracts
to precisely those 21 tokens, for every k. -/
theorem claim_C1_extraction_first_offset :
    (∀ (l : List Char) (i : Nat),
      (∀ j, j < i → offsetOk (cleanParts l) j = false) →
      offsetOk (cleanParts l) i = true →
      clean_csv_line l = some (((cleanParts l).drop i).take EXPECTED_HEADER.length)) ∧
    (∀ junk nums : List (List Char),
      (∀ t ∈ junk, cleanTok t = true) → (∀ t ∈ nums, cleanTok t = true) →
      (∀ t ∈ junk, is_numeric t = false) → (∀ t ∈ nums, is_numeric t = true) →
      nums.length = EXPECTED_HEADER.length →
      clean_csv_line (joinComma (junk ++ nums)) = some nums) := by
  constructor
  · intro l i h0 hok
    unfold clean_csv_line
    exact fr_first i (cleanParts l) h0 hok
  · intro junk nums hj hn hjn hnn hlen
    exact realign hj hn hjn hnn hlen

/-- Witness for C1: two junk tokens before 21 numeric tokens extract to
exactly the numeric tokens. -/
theorem claim_C1_witness :
    clean_csv_line (joinComma (wJunk ++ wNumsA)) = some wNumsA :=
  claim_C1_extraction_first_offset.2 wJunk wNumsA (by decide) (by decide) (by decide)
    (by decide) (by decide)

/-- C2: whenever clean_csv_line returns a record, the record has length
exactly N=21 and every element is numeric-parseable. -/
theorem claim_C2_extraction_soundness (l : List Char) (r : List (List Char))
    (h : clean_csv_line l = some r) :
    r.length = 21 ∧ ∀ t ∈ r, is_numeric t = true := by
  have h2 := fr_sound (cleanParts l) r h
  rw [hn21] at h2
  exact h2

/-- Witness for C2: a plain 21-value line extracts to 21 numeric
tokens. -/
theorem claim_C2_witness :
    wNumsB.length = 21 ∧ ∀ t ∈ wNumsB, is_numeric t = true :=
  claim_C2_extraction_soundness wRec21 wNumsB (by decide)

/-- C3: a line whose cleaned, lowercased text contains a denylisted
keyword is classified noise and is never a candidate, whatever its
comma-split shape or numeric content. -/
theorem claim_C3_keyword_noise (l : List Char)
    (h : hasKeyword (stripCtl (pyStrip l)) = true) :
    is_csv_data_line l = false ∧ classifyData l = DataClass.noise := by
  constructor
  · unfold is_csv_data_line icdl
    rw [if_pos h]
  · unfold classifyData
    rw [if_pos h]

/-- Witness for C3: a keyword-bearing line with 21 parts of which 20
are numeric is still rejected as noise. -/
theorem claim_C3_witness :
    is_csv_data_line wNoise = false ∧ classifyData wNoise = DataClass.noise :=
  claim_C3_keyword_noise wNoise (by decide)

/-- C4: over any finite run whose lines include the header marker at
least once, starting from an unwritten-header state, exactly one header
row is emitted, wherever and however often the marker appears; and a
marker line arriving after the header was written is dropped with no
effect at all. -/
theorem claim_C4_single_header :
    (∀ (lines : List (Nat × List Char)) (st : SessionState),
      st.header_written = false →
      (∃ p ∈ lines, containsSub MARKER p.2 = true) →
      headerCount (processAll st lines).2 = 1) ∧
    (∀ (st : SessionState) (now : Nat) (raw : List Char),
      st.header_written = true → containsSub MARKER (pyStrip raw) = true →
      processLine st now raw = (st, [])) := by
  constructor
  · intro lines st hw hex
    obtain ⟨p, hp, hmk⟩ := hex
    have hstrip : containsSub MARKER (pyStrip p.2) = true := by
      rw [marker_strip]
      exact hmk
    have hml : hasMarkerLine lines = true :=
      List.any_eq_true.mpr ⟨p, hp, hstrip⟩
    rw [(pa_header_inv lines st).1, if_pos ⟨hw, hml⟩]
  · intro st now raw hw hm
    exact pl_header_rep st now hm hw

/-- Witness for C4: two marker lines produce exactly one header row. -/
theorem claim_C4_witness :
    headerCount (processAll ⟨false, 0, 0⟩ wTimedLines).2 = 1 :=
  claim_C4_single_header.1 wTimedLines ⟨false, 0, 0⟩ rfl ⟨(0, wHdr), by decide, by decide⟩

/-- C5 counterexample: classification is not a function of the
control-stripped line, because the header test of src/main.py line 145
runs on the raw stripped line: a marker interrupted by a NUL byte
classifies Unrecognized while its control-stripped form classifies
Header. -/
theorem claim_C5_counterexample :
    classifyLine wCtl = LineClass.unrecognized ∧
    classifyLine (stripCtl wCtl) = LineClass.header ∧
    classifyLine (stripCtl wCtl) ≠ classifyLine wCtl :=
  ⟨by decide, by decide, by decide⟩

/-- C5 amended: the Noise, Candidate and Unrecognized decisions and the
extraction result are invariant under control-character stripping (the
heuristics re-clean the line themselves); only the Header decision,
which inspects the raw whitespace-stripped line, escapes this
invariance. -/
theorem claim_C5_amended (l : List Char) :
    is_csv_data_line (stripCtl l) = is_csv_data_line l ∧
    clean_csv_line (stripCtl l) = clean_csv_line l ∧
    classifyData (stripCtl l) = classifyData l :=
  ⟨icd_stripCtl l, ccl_stripCtl l, cdata_stripCtl l⟩

/-- C6 counterexample: the summary check does not run after every
processed line: a noise line arriving 20 time units after the last
summary produces no summary and leaves the counter untouched. -/
theorem claim_C6_counterexample :
    15 ≤ 20 - (⟨true, 3, 0⟩ : SessionState).last_summary_time ∧
    processLine ⟨true, 3, 0⟩ 20 wNoiseLine =
      (⟨true, 3, 0⟩, [LogEvent.deviceMsg wNoiseLine]) ∧
    summaryCount (processLine ⟨true, 3, 0⟩ 20 wNoiseLine).2 = 0 :=
  ⟨by decide, by decide, by decide⟩

/-- C6 amended: the elapsed-time check runs only when a candidate line
extracts to a record: if at least 15 units elapsed since the last
summary, exactly one summary is emitted (regardless of how many 15-unit
windows passed) reporting the count accumulated since the last reset
including the triggering record, and the counter and timestamp reset;
below 15 units the record is logged and counted with no summary; and a
summary can only ever appear on such a record-producing step. -/
theorem claim_C6_amended :
    (∀ (st : SessionState) (now : Nat) (raw : List Char) (r : List (List Char)),
      containsSub MARKER (pyStrip raw) = false →
      is_csv_data_line raw = true → clean_csv_line raw = some r →
      15 ≤ now - st.last_summary_time →
      processLine st now raw =
        ({ st with csv_message_count := 0, last_summary_time := now },
         [LogEvent.dataRow now r, LogEvent.summary (st.csv_message_count + 1)])) ∧
    (∀ (st : SessionState) (now : Nat) (raw : List Char) (r : List (List Char)),
      containsSub MARKER (pyStrip raw) = false →
      is_csv_data_line raw = true → clean_csv_line raw = some r →
      now - st.last_summary_time < 15 →
      processLine st now raw =
        ({ st with csv_message_count := st.csv_message_count + 1 },
         [LogEvent.dataRow now r])) ∧
    (∀ (st : SessionState) (now : Nat) (raw : List Char),
      summaryCount (processLine st now raw).2 ≠ 0 →
      15 ≤ now - st.last_summary_time ∧ is_csv_data_line raw = true ∧
        (clean_csv_line raw).isSome = true) := by
  refine ⟨?_, ?_, ?_⟩
  · intro st now raw r hM hC hX h15
    exact pl_record_summary st now hM hC hX h15
  · intro st now raw r hM hC hX h15
    exact pl_record_plain st now hM hC hX (by omega)
  · intro st now raw h
    obtain ⟨a, b, c, _⟩ := pl_summary_shape st now raw h
    exact ⟨a, b, c⟩

/-- Witness for C6 amended: a record arriving 20 units after the last
summary with 2 records already counted emits the row, one summary of 3,
and resets the counter and timestamp. -/
theorem claim_C6_witness :
    processLine ⟨true, 2, 0⟩ 20 wRec21 =
      (⟨true, 0, 20⟩, [LogEvent.dataRow 20 wNumsB, LogEvent.summary 3]) :=
  claim_C6_amended.1 ⟨true, 2, 0⟩ 20 wRec21 wNumsB (by decide) (by decide) (by decide)
    (by decide)

/-- C7: a candidate-classified non-marker line on which extraction
fails produces exactly one parse-error diagnostic and leaves the whole
session state unchanged. -/
theorem claim_C7_parse_error_inert (st : SessionState) (now : Nat) (raw : List Char)
    (hM : containsSub MARKER (pyStrip raw) = false)
    (hC : is_csv_data_line raw = true) (hX : clean_csv_line raw = none) :
    processLine st now raw = (st, [LogEvent.parseError (pyStrip raw)]) :=
  pl_parse_error st now hM hC hX

/-- Witness for C7: a 15-value line passes the classifier, fails
extraction, and leaves the state ⟨false, 5, 7⟩ untouched. -/
theorem claim_C7_witness :
    processLine ⟨false, 5, 7⟩ 100 wLine15 =
      (⟨false, 5, 7⟩, [LogEvent.parseError wLine15]) :=
  claim_C7_parse_error_inert ⟨false, 5, 7⟩ 100 wLine15 (by decide) (by decide) (by decide)

/-- C8: without denylisted keywords, a part count outside the inclusive
band [15, 25] is rejected as unrecognized; an all-numeric line of
exactly 15 parts is a candidate and so is one of exactly 25 parts, so
the band is inclusive at both ends (a 14-part line falls under the
first conjunct). -/
theorem claim_C8_width_band :
    (∀ l : List Char,
      hasKeyword (stripCtl (pyStrip l)) = false →
      ((splitComma (stripCtl (pyStrip l))).length < 15 ∨
        25 < (splitComma (stripCtl (pyStrip l))).length) →
      is_csv_data_line l = false ∧ classifyData l = DataClass.unrecognized) ∧
    (∀ l : List Char,
      hasKeyword (stripCtl (pyStrip l)) = false →
      (splitComma (stripCtl (pyStrip l))).length = 15 →
      (∀ p ∈ splitComma (stripCtl (pyStrip l)), is_numeric (pyStrip p) = true) →
      is_csv_data_line l = true) ∧
    (∀ l : List Char,
      hasKeyword (stripCtl (pyStrip l)) = false →
      (splitComma (stripCtl (pyStrip l))).length = 25 →
      (∀ p ∈ splitComma (stripCtl (pyStrip l)), is_numeric (pyStrip p) = true) →
      is_csv_data_line l = true) := by
  refine ⟨?_, ?_, ?_⟩
  · intro l hkw hband
    constructor
    · unfold is_csv_data_line icdl
      rw [if_neg (by simp [hkw]), if_pos hband]
    · unfold classifyData
      rw [if_neg (by simp [hkw]), if_pos hband]
  · intro l hkw hlen hnum
    have hcnt : (splitComma (stripCtl (pyStrip l))).countP (fun p => is_numeric (pyStrip p)) =
        (splitComma (stripCtl (pyStrip l))).length :=
      List.countP_eq_length.mpr hnum
    unfold is_csv_data_line icdl
    rw [if_neg (by simp [hkw]), if_neg (by omega), if_neg (by rw [hcnt]; omega)]
  · intro l hkw hlen hnum
    have hcnt : (splitComma (stripCtl (pyStrip l))).countP (fun p => is_numeric (pyStrip p)) =
        (splitComma (stripCtl (pyStrip l))).length :=
      List.countP_eq_length.mpr hnum
    unfold is_csv_data_line icdl
    rw [if_neg (by simp [hkw]), if_neg (by omega), if_neg (by rw [hcnt]; omega)]

/-- Witness for C8: 14 all-numeric parts are unrecognized, 15 and 25
all-numeric parts are candidates. -/
theorem claim_C8_witness :
    (is_csv_data_line wLine14 = false ∧ classifyData wLine14 = DataClass.unrecognized) ∧
    is_csv_data_line wLine15 = true ∧ is_csv_data_line wLine25 = true :=
  ⟨claim_C8_width_band.1 wLine14 (by decide) (by decide),
   claim_C8_width_band.2.1 wLine15 (by decide) (by decide) (by decide),
   claim_C8_width_band.2.2 wLine25 (by decide) (by decide) (by decide)⟩

/-- C9: without denylisted keywords and with a part count inside the
band [15, 25], the line is a candidate exactly when the numeric parts
reach the 0.8 fraction of all parts (stated exactly as
4 * partCount ≤ 5 * numericCount, which the floating-point test of the
source realizes on this band). -/
theorem claim_C9_numeric_threshold (l : List Char)
    (hkw : hasKeyword (stripCtl (pyStrip l)) = false)
    (h15 : 15 ≤ (splitComma (stripCtl (pyStrip l))).length)
    (h25 : (splitComma (stripCtl (pyStrip l))).length ≤ 25) :
    is_csv_data_line l = true ↔
      4 * (splitComma (stripCtl (pyStrip l))).length ≤
        5 * (splitComma (stripCtl (pyStrip l))).countP (fun p => is_numeric (pyStrip p)) := by
  unfold is_csv_data_line icdl
  rw [if_neg (by simp [hkw]), if_neg (by omega)]
  by_cases hth : ((splitComma (stripCtl (pyStrip l))).countP
      (fun p => is_numeric (pyStrip p))) * 5 < (splitComma (stripCtl (pyStrip l))).length * 4
  · rw [if_pos hth]
    constructor
    · intro h
      exact Bool.noConfusion h
    · intro h
      exact absurd h (by omega)
  · rw [if_neg hth]
    constructor
    · intro _
      omega
    · intro _
      rfl

/-- Witness for C9: a 20-part line with 16 numeric parts (exactly 80
percent) is a candidate, and with 15 numeric parts it is not. -/
theorem claim_C9_witness :
    is_csv_data_line wFrac16 = true ∧ is_csv_data_line wFrac15 = false := by
  constructor
  · exact (claim_C9_numeric_threshold wFrac16 (by decide) (by decide) (by decide)).mpr
      (by decide)
  · cases hb : is_csv_data_line wFrac15 with
    | false => rfl
    | true =>
      exact absurd
        ((claim_C9_numeric_threshold wFrac15 (by decide) (by decide) (by decide)).mp hb)
        (by decide)

/-- C10: a line whose cleaned comma-split has fewer than 21 parts never
extracts; hence a candidate-classified non-marker line with between 15
and 20 parts is always reported as a parse error and never yields an
output row. -/
theorem claim_C10_short_candidate :
    (∀ l : List Char, (cleanParts l).length < EXPECTED_HEADER.length →
      clean_csv_line l = none) ∧
    (∀ (st : SessionState) (now : Nat) (l : List Char),
      containsSub MARKER (pyStrip l) = false →
      is_csv_data_line l = true →
      15 ≤ (cleanParts l).length → (cleanParts l).length ≤ 20 →
      processLine st now l = (st, [LogEvent.parseError (pyStrip l)])) := by
  constructor
  · intro l h
    unfold clean_csv_line
    exact fr_none_short (cleanParts l) h
  · intro st now l hM hC _hlo hhi
    have hnone : clean_csv_line l = none := by
      unfold clean_csv_line
      exact fr_none_short (cleanParts l) (by rw [hn21]; omega)
    exact pl_parse_error st now hM hC hnone

/-- Witness for C10: an 18-part all-numeric line is a candidate that
always ends in a parse error with the state untouched. -/
theorem claim_C10_witness :
    clean_csv_line wLine18 = none ∧
    processLine ⟨true, 1, 2⟩ 3 wLine18 = (⟨true, 1, 2⟩, [LogEvent.parseError wLine18]) :=
  ⟨claim_C10_short_candidate.1 wLine18 (by decide),
   claim_C10_short_candidate.2 ⟨true, 1, 2⟩ 3 wLine18 (by decide) (by decide) (by decide)
     (by decide)⟩
